import Mathlib

/-!
Verification of the FIFO page-replacement simulation engine
(`src/fifo-simulator.js`) against its specification.

The engine's mutable state is the Frame Bank (`frames`, an array of
`framesCount` slots each holding a page number or `null`), the Replacement
Queue (`queue`, frame indices in fill order) and the remaining required
pages (`requiredPages`, drained as pages become resident).  `nextStep`
processes one page of the reference string per invocation, emitting a
history row, and recurses until the reference string is exhausted or the
required set has drained.
-/

namespace Fifo

/-- One slot of the Frame Bank: a page number or `null`. -/
abbrev Frame := Option Nat

/-- The mutable simulation state of `runSimulation`:
`frames` (the Frame Bank), `queue` (the Replacement Queue of frame
indices) and `required` (the remaining required pages, the clone
`requiredPages` of the input that the engine drains). -/
structure SimState where
  frames : List Frame
  queue : List Nat
  required : List Nat
deriving DecidableEq

/-- One emitted simulation step: the 1-based step index, the page
processed, the snapshot of the Frame Bank after the step, and the fault
flag (the `YES`/`NO` column). -/
structure StepRec where
  idx : Nat
  page : Nat
  frames : List Frame
  fault : Bool
deriving DecidableEq

/-- The FIFO placement rule of `nextStep` (lines 154-163): on a miss,
if some slot is `null` put the page in the first such slot and push its
index on the queue; otherwise shift the front index off the queue,
overwrite that slot and push the index back. -/
def placePage (page : Nat) (frames : List Frame) (queue : List Nat) :
    List Frame × List Nat :=
  if (none : Frame) ∈ frames then
    let emptyIndex := frames.indexOf none
    (frames.set emptyIndex (some page), queue ++ [emptyIndex])
  else
    match queue with
    | [] => (frames, [])
    | removeIndex :: rest =>
      (frames.set removeIndex (some page), rest ++ [removeIndex])

/-- The state update and fault computation of one invocation of
`nextStep` (lines 143-176): fault is raised on a miss while required
pages remain, the page is placed on a miss, resident pages are drained
from `required`, and the fault is cleared when the required set empties. -/
def processPage (showPageFault : Bool) (page : Nat) (s : SimState) :
    SimState × Bool :=
  let isPageInRAM : Bool := decide ((some page) ∈ s.frames)
  let fault0 : Bool := !isPageInRAM && (showPageFault && decide (s.required.length > 0))
  let fq := if isPageInRAM then (s.frames, s.queue) else placePage page s.frames s.queue
  let required1 :=
    if s.required.length > 0 then
      s.required.filter (fun r => !(decide ((some r) ∈ fq.1)))
    else s.required
  let fault : Bool :=
    if s.required.length > 0 && required1.length == 0 then false else fault0
  (⟨fq.1, fq.2, required1⟩, fault)

/-- The recursive driver of `nextStep`: stop when the reference string is
exhausted (line 141); otherwise process one page, emit its history row
(line 191, with 1-based step index), and stop early when the required set
has drained and fault tracking is on (line 196). -/
def nextStep (showPageFault : Bool) : List Nat → Nat → SimState → List StepRec
  | [], _, _ => []
  | page :: rest, idx, s =>
    let r := processPage showPageFault page s
    let row : StepRec := ⟨idx, page, r.1.frames, r.2⟩
    if r.1.required.length == 0 && showPageFault then [row]
    else row :: nextStep showPageFault rest (idx + 1) r.1

/-- The initial state of `runSimulation` (lines 126-131): `framesCount`
slots all `null`, empty queue, and a copy of the required-pages input. -/
def initState (framesCount : Nat) (requiredPagesInput : List Nat) : SimState :=
  ⟨List.replicate framesCount none, [], requiredPagesInput⟩

/-- `runSimulation` (lines 116-205): run `nextStep` from the fresh empty
state over the whole reference string, collecting the emitted steps. -/
def runSimulation (framesCount : Nat) (referenceString : List Nat)
    (requiredPagesInput : List Nat) (showPageFault : Bool) : List StepRec :=
  nextStep showPageFault referenceString 1 (initState framesCount requiredPagesInput)

/-- The state reached after processing every page of `ref` in order
(ignoring early termination); states of any stopped run are states of
this form for a prefix of the reference string. -/
def stateAfter (showPageFault : Bool) (ref : List Nat) (s : SimState) : SimState :=
  ref.foldl (fun s p => (processPage showPageFault p s).1) s

/-- The list of states reached after each successive page of `ref`. -/
def statesList (showPageFault : Bool) : List Nat → SimState → List SimState
  | [], _ => []
  | p :: rest, s =>
    let s1 := (processPage showPageFault p s).1
    s1 :: statesList showPageFault rest s1

/-- Whether slot `i` of the Frame Bank currently holds a page. -/
def isOccupied (frames : List Frame) (i : Nat) : Bool :=
  match frames.get? i with
  | some (some _) => true
  | _ => false

/-- The number of occupied slots of the Frame Bank. -/
def countOccupied (frames : List Frame) : Nat :=
  frames.countP (fun o => o.isSome)

/-- The input-validation step of the Start-button click listener
(lines 56-66): the frame count must lie in 3..5 and the parsed reference
string is rejected when its length exceeds 10 (the code's test at line 63
is `pages.length > 10`). -/
def validationAccepts (framesCount : Nat) (pages : List Nat) : Bool :=
  if framesCount < 3 || framesCount > 5 then false
  else if pages.length > 10 then false
  else true

end Fifo

namespace FifoB

open Fifo

/-- State of the Policy B engine: Frame Bank and Replacement Queue (the
required set does not drain under Policy B, so it is a parameter, not
state). -/
structure BState where
  frames : List Frame
  queue : List Nat
deriving DecidableEq

/-- Whether every required page is simultaneously resident in the Frame
Bank right now. -/
def allRequiredResident (required : List Nat) (frames : List Frame) : Bool :=
  required.all (fun r => decide ((some r) ∈ frames))

/-- Modelled from the spec: the per-step fault rule of Policy B
(completion-lookahead), the fault-accounting variant of the engine that is
absent from `src/` (spec §4.1, step 4, Policy B).  On a hit nothing
changes and no fault is signaled; on a miss the FIFO placement rule is
applied and a fault is signaled unless the Frame Bank after this placement
simultaneously contains every required page; an empty required set
disables fault tracking (fault always false). -/
def doStepB (required : List Nat) (page : Nat) (s : BState) : BState × Bool :=
  let hit : Bool := decide ((some page) ∈ s.frames)
  let fq := if hit then (s.frames, s.queue) else placePage page s.frames s.queue
  let fault : Bool :=
    if required.isEmpty then false
    else !(hit || allRequiredResident required fq.1)
  (⟨fq.1, fq.2⟩, fault)

/-- Modelled from the spec: the Policy B driver (spec §4.1, steps 1-6,
Policy B).  Steps are produced until the reference string is exhausted, or
— when fault tracking is enabled — until all required pages are
simultaneously resident at the same instant, whichever comes first. -/
def runB (required : List Nat) : List Nat → Nat → BState → List StepRec
  | [], _, _ => []
  | page :: rest, idx, s =>
    let r := doStepB required page s
    let row : StepRec := ⟨idx, page, r.1.frames, r.2⟩
    if !required.isEmpty && allRequiredResident required r.1.frames then [row]
    else row :: runB required rest (idx + 1) r.1

/-- The Policy B state reached after processing every page of `ref`. -/
def bStateAfter (required : List Nat) (ref : List Nat) (s : BState) : BState :=
  ref.foldl (fun s p => (doStepB required p s).1) s

end FifoB

namespace FifoG

open Fifo

/-- The engine state instrumented with a ghost clock: `fillTime i` records
the instant at which frame `i` was last filled (or refilled), and `clock`
ticks once per processed page.  The ghost fields change nothing about the
computation; they only let us state in which order the occupied frames
were filled. -/
structure GState where
  frames : List Frame
  queue : List Nat
  required : List Nat
  fillTime : Nat → Nat
  clock : Nat

/-- Forget the ghost fields. -/
def GState.toSim (g : GState) : SimState := ⟨g.frames, g.queue, g.required⟩

/-- `processPage` instrumented with the ghost clock: identical state
update, plus `fillTime` is set to the current clock at the index written
on a miss (the freshly filled empty slot, or the slot shifted off the
front of the queue). -/
def processPageG (sp : Bool) (page : Nat) (g : GState) : GState :=
  let isPageInRAM : Bool := decide ((some page) ∈ g.frames)
  let fq := if isPageInRAM then (g.frames, g.queue) else placePage page g.frames g.queue
  let written : Option Nat :=
    if isPageInRAM then none
    else if (none : Frame) ∈ g.frames then some (g.frames.indexOf none)
    else g.queue.head?
  let fillTime1 : Nat → Nat := fun j => if written = some j then g.clock else g.fillTime j
  let required1 :=
    if g.required.length > 0 then
      g.required.filter (fun r => !(decide ((some r) ∈ fq.1)))
    else g.required
  ⟨fq.1, fq.2, required1, fillTime1, g.clock + 1⟩

/-- The instrumented initial state. -/
def initG (framesCount : Nat) (req : List Nat) : GState :=
  ⟨List.replicate framesCount none, [], req, fun _ => 0, 0⟩

/-- The instrumented state after processing every page of `ref`. -/
def gAfter (sp : Bool) (ref : List Nat) (g : GState) : GState :=
  ref.foldl (fun g p => processPageG sp p g) g

/-- The instrumented state of a whole run from the fresh initial state. -/
def gRun (framesCount : Nat) (ref req : List Nat) (sp : Bool) : GState :=
  gAfter sp ref (initG framesCount req)

/-- The Replacement Queue invariant: the queue holds no duplicates, its
members are exactly the occupied frame indices, its size is the count of
occupied frames, it is strictly ordered by fill time, and every fill time
on it lies in the past of the clock. -/
def QInv (g : GState) : Prop :=
  g.queue.Nodup ∧
  (∀ i, i ∈ g.queue ↔ isOccupied g.frames i = true) ∧
  g.queue.length = countOccupied g.frames ∧
  g.queue.Pairwise (fun a b => g.fillTime a < g.fillTime b) ∧
  (∀ i ∈ g.queue, g.fillTime i < g.clock)

end FifoG

open Fifo FifoB

/-! ### Definitional component lemmas for `processPage` -/

lemma processPage_frames_def (sp : Bool) (p : Nat) (s : SimState) :
    (processPage sp p s).1.frames =
      (if decide ((some p) ∈ s.frames) then (s.frames, s.queue)
       else placePage p s.frames s.queue).1 := rfl

lemma processPage_queue_def (sp : Bool) (p : Nat) (s : SimState) :
    (processPage sp p s).1.queue =
      (if decide ((some p) ∈ s.frames) then (s.frames, s.queue)
       else placePage p s.frames s.queue).2 := rfl

lemma processPage_required_def (sp : Bool) (p : Nat) (s : SimState) :
    (processPage sp p s).1.required =
      (if s.required.length > 0 then
         s.required.filter (fun r => !(decide ((some r) ∈ (processPage sp p s).1.frames)))
       else s.required) := rfl

lemma processPage_fault_def (sp : Bool) (p : Nat) (s : SimState) :
    (processPage sp p s).2 =
      (if s.required.length > 0 && (processPage sp p s).1.required.length == 0 then false
       else !(decide ((some p) ∈ s.frames)) && (sp && decide (s.required.length > 0))) := rfl

/-! ### Claim theorems (first batch) -/

/-- C8: the engine is deterministic — runs are pure functions of the
inputs, and every run unfolds from the fresh state with all-empty Frame
Bank and empty Replacement Queue (no cross-run persistence). -/
theorem runSimulation_deterministic (fc : Nat) (ref req : List Nat) (sp : Bool) :
    runSimulation fc ref req sp = runSimulation fc ref req sp ∧
    runSimulation fc ref req sp =
      nextStep sp ref 1 ⟨List.replicate fc none, [], req⟩ :=
  ⟨rfl, rfl⟩

/-- C9: the click-listener validation accepts a parsed reference string of
length exactly 10 (its test is `pages.length > 10`), although a length-10
string does not have fewer than 10 elements, contradicting the code's own
comment and alert text (`fewer than 10 elements`). -/
theorem validation_accepts_length_ten :
    validationAccepts 3 [1, 2, 3, 4, 5, 6, 7, 8, 9, 10] = true ∧
    ¬ (([1, 2, 3, 4, 5, 6, 7, 8, 9, 10] : List Nat).length < 10) := by
  decide

/-- C5: a hit (page already resident) changes neither the Frame Bank nor
the Replacement Queue and signals no fault, under the code's policy
(Policy A) and under the spec-modelled Policy B alike. -/
theorem hit_no_change_no_fault (sp : Bool) (p : Nat) (req : List Nat)
    (s : SimState) (b : BState)
    (hA : (some p) ∈ s.frames) (hB : (some p) ∈ b.frames) :
    (processPage sp p s).1.frames = s.frames ∧
    (processPage sp p s).1.queue = s.queue ∧
    (processPage sp p s).2 = false ∧
    (doStepB req p b).1.frames = b.frames ∧
    (doStepB req p b).1.queue = b.queue ∧
    (doStepB req p b).2 = false := by
  refine ⟨?_, ?_, ?_, ?_, ?_, ?_⟩ <;> simp [processPage, doStepB, hA, hB]

/-- Witness for C5 at a concrete hit. -/
theorem hit_no_change_no_fault_witness :
    (processPage true 1 ⟨[some 1, none], [0], [2]⟩).1.frames = [some 1, none] ∧
    (processPage true 1 ⟨[some 1, none], [0], [2]⟩).1.queue = [0] ∧
    (processPage true 1 ⟨[some 1, none], [0], [2]⟩).2 = false ∧
    (doStepB [3] 1 ⟨[some 1], [0]⟩).1.frames = [some 1] ∧
    (doStepB [3] 1 ⟨[some 1], [0]⟩).1.queue = [0] ∧
    (doStepB [3] 1 ⟨[some 1], [0]⟩).2 = false :=
  hit_no_change_no_fault true 1 [3] ⟨[some 1, none], [0], [2]⟩ ⟨[some 1], [0]⟩
    (by decide) (by decide)

/-- C1: on a miss with no empty slot, the engine shifts the front index
off the Replacement Queue, overwrites that frame with the page, and pushes
the same index onto the back of the queue (the FIFO eviction rule); under
the Replacement Queue invariant the overwritten frame is the one with the
least fill time among all occupied frames, i.e. the longest-resident page
is the one replaced. -/
theorem fifo_eviction_rule (sp : Bool) (p : Nat) (s : SimState) (i : Nat) (rest : List Nat)
    (hmiss : (some p) ∉ s.frames) (hfull : (none : Frame) ∉ s.frames)
    (hq : s.queue = i :: rest) :
    (processPage sp p s).1.frames = s.frames.set i (some p) ∧
    (processPage sp p s).1.queue = rest ++ [i] ∧
    (∀ g : FifoG.GState, g.toSim = s → FifoG.QInv g →
      ∀ j, isOccupied g.frames j = true → g.fillTime i ≤ g.fillTime j) := by
  refine ⟨?_, ?_, ?_⟩
  · simp [processPage, placePage, hmiss, hfull, hq]
  · simp [processPage, placePage, hmiss, hfull, hq]
  · intro g hgs hQ j hocc
    have hq2 : g.queue = i :: rest := by
      have hqs : g.toSim.queue = s.queue := congrArg SimState.queue hgs
      have hgq : g.queue = s.queue := hqs
      rw [hgq, hq]
    obtain ⟨_, hmem, _, hpw, _⟩ := hQ
    have hjq := (hmem j).mpr hocc
    rw [hq2] at hjq
    rcases List.mem_cons.mp hjq with h1 | h2
    · rw [h1]
    · have hpw2 := hpw
      rw [hq2, List.pairwise_cons] at hpw2
      exact Nat.le_of_lt (hpw2.1 j h2)

/-- Witness for C1 at a concrete full Frame Bank. -/
theorem fifo_eviction_rule_witness :
    (processPage false 3 ⟨[some 1, some 2], [0, 1], []⟩).1.frames = [some 3, some 2] ∧
    (processPage false 3 ⟨[some 1, some 2], [0, 1], []⟩).1.queue = [1, 0] :=
  ⟨(fifo_eviction_rule false 3 ⟨[some 1, some 2], [0, 1], []⟩ 0 [1]
      (by decide) (by decide) rfl).1,
   (fifo_eviction_rule false 3 ⟨[some 1, some 2], [0, 1], []⟩ 0 [1]
      (by decide) (by decide) rfl).2.1⟩

/-- C10: with fault tracking on but an empty required-pages input, the run
emits exactly the first step, with fault `false`, and stops. -/
theorem empty_required_single_step (fc : Nat) (p : Nat) (rest : List Nat) :
    runSimulation fc (p :: rest) [] true =
      [⟨1, p, (processPage true p (initState fc [])).1.frames, false⟩] := by
  have hreq : (processPage true p (initState fc [])).1.required = [] := by
    rw [processPage_required_def]; rfl
  have hfault : (processPage true p (initState fc [])).2 = false := by
    rw [processPage_fault_def]; simp [initState]
  unfold runSimulation nextStep
  simp [hreq, hfault]

/-! ### Frame-length preservation and termination lemmas -/

lemma placePage_frames_length (p : Nat) (frames : List Frame) (queue : List Nat) :
    (placePage p frames queue).1.length = frames.length := by
  unfold placePage
  split
  · simp
  · split <;> simp

lemma processPage_frames_length (sp : Bool) (p : Nat) (s : SimState) :
    (processPage sp p s).1.frames.length = s.frames.length := by
  rw [processPage_frames_def]
  split
  · rfl
  · exact placePage_frames_length p s.frames s.queue

lemma nextStep_row_frames_length (sp : Bool) :
    ∀ (ref : List Nat) (idx : Nat) (s : SimState) (row : StepRec),
      row ∈ nextStep sp ref idx s → row.frames.length = s.frames.length := by
  intro ref
  induction ref with
  | nil => intro idx s row h; simp [nextStep] at h
  | cons p rest ih =>
    intro idx s row h
    simp only [nextStep] at h
    split at h
    · rw [List.mem_singleton] at h
      subst h
      exact processPage_frames_length sp p s
    · rcases List.mem_cons.mp h with h1 | h2
      · subst h1
        exact processPage_frames_length sp p s
      · rw [ih (idx + 1) (processPage sp p s).1 row h2]
        exact processPage_frames_length sp p s

lemma nextStep_length_le (sp : Bool) :
    ∀ (ref : List Nat) (idx : Nat) (s : SimState),
      (nextStep sp ref idx s).length ≤ ref.length := by
  intro ref
  induction ref with
  | nil => intro idx s; simp [nextStep]
  | cons p rest ih =>
    intro idx s
    simp only [nextStep]
    split
    · simp
    · simpa using Nat.succ_le_succ (ih (idx + 1) (processPage sp p s).1)

lemma stateAfter_nil (sp : Bool) (s : SimState) : stateAfter sp [] s = s := rfl

lemma stateAfter_cons (sp : Bool) (p : Nat) (rest : List Nat) (s : SimState) :
    stateAfter sp (p :: rest) s = stateAfter sp rest (processPage sp p s).1 := rfl

lemma nextStep_stop_characterization (sp : Bool) :
    ∀ (ref : List Nat) (idx : Nat) (s : SimState),
      (nextStep sp ref idx s).length < ref.length →
        sp = true ∧
        (stateAfter sp (ref.take (nextStep sp ref idx s).length) s).required = [] := by
  intro ref
  induction ref with
  | nil => intro idx s h; simp [nextStep] at h
  | cons p rest ih =>
    intro idx s
    simp only [nextStep]
    split
    · rename_i hstop
      intro _
      have hsp : sp = true := ((Bool.and_eq_true _ _).mp hstop).2
      have hreq : (processPage sp p s).1.required = [] :=
        List.length_eq_zero.mp (by simpa using ((Bool.and_eq_true _ _).mp hstop).1)
      exact ⟨hsp, by simpa [stateAfter] using hreq⟩
    · intro hlt
      have hlt' : (nextStep sp rest (idx + 1) (processPage sp p s).1).length < rest.length := by
        simpa using hlt
      have hrec := ih (idx + 1) (processPage sp p s).1 hlt'
      refine ⟨hrec.1, ?_⟩
      simpa [List.take_succ_cons, stateAfter_cons] using hrec.2

lemma nextStep_no_earlier_stop (sp : Bool) :
    ∀ (ref : List Nat) (idx : Nat) (s : SimState) (k : Nat),
      sp = true → 1 ≤ k → k < (nextStep sp ref idx s).length →
      (stateAfter sp (ref.take k) s).required ≠ [] := by
  intro ref
  induction ref with
  | nil => intro idx s k _ _ h; simp [nextStep] at h
  | cons p rest ih =>
    intro idx s k hsp hk hlt
    subst hsp
    simp only [nextStep] at hlt
    obtain ⟨k', rfl⟩ : ∃ k', k = k' + 1 := ⟨k - 1, by omega⟩
    split at hlt
    · simp at hlt
    · rename_i hcont
      rw [List.take_succ_cons, stateAfter_cons]
      have hne : (processPage true p s).1.required ≠ [] := by
        intro hnil
        exact hcont (by simp [hnil])
      cases k' with
      | zero => simpa [stateAfter] using hne
      | succ k'' =>
        exact ih (idx + 1) (processPage true p s).1 (k'' + 1) rfl (by omega) (by simpa using hlt)

/-- C6: the engine terminates — it emits at most one step per page of the
reference string; a run that stops before exhausting the reference string
does so with fault tracking on and the required set drained exactly at the
stopping point (Policy A's completion condition), and at no earlier step
was the required set already drained. -/
theorem engine_terminates (fc : Nat) (ref req : List Nat) (sp : Bool)
    (href : ref ≠ []) (hfc : 1 ≤ fc) :
    (runSimulation fc ref req sp).length ≤ ref.length ∧
    ((runSimulation fc ref req sp).length < ref.length →
      sp = true ∧
      (stateAfter sp (ref.take (runSimulation fc ref req sp).length)
        (initState fc req)).required = []) ∧
    (sp = true → ∀ k, 1 ≤ k → k < (runSimulation fc ref req sp).length →
      (stateAfter sp (ref.take k) (initState fc req)).required ≠ []) := by
  refine ⟨nextStep_length_le sp ref 1 _, nextStep_stop_characterization sp ref 1 _, ?_⟩
  intro hsp k hk hlt
  exact nextStep_no_earlier_stop sp ref 1 _ k hsp hk hlt

/-- Witness for C6 on the spec's Policy A scenario. -/
theorem engine_terminates_witness :
    (runSimulation 3 [1, 2, 3, 4] [2, 4] true).length ≤ 4 :=
  (engine_terminates 3 [1, 2, 3, 4] [2, 4] true (by decide) (by decide)).1

/-- C7: the Frame Bank always has exactly `framesCount` slots, so it never
holds more than `framesCount` occupied slots, at every emitted step. -/
theorem frame_bank_capacity (fc : Nat) (ref req : List Nat) (sp : Bool)
    (hfc : 1 ≤ fc) :
    ∀ row ∈ runSimulation fc ref req sp,
      row.frames.length = fc ∧ countOccupied row.frames ≤ fc := by
  intro row hrow
  have hlen : row.frames.length = fc := by
    have h := nextStep_row_frames_length sp ref 1 (initState fc req) row hrow
    simpa [initState] using h
  refine ⟨hlen, ?_⟩
  calc countOccupied row.frames ≤ row.frames.length := List.countP_le_length _
    _ = fc := hlen

/-- Witness for C7 at a concrete emitted step. -/
theorem frame_bank_capacity_witness :
    (⟨1, 1, [some 1, none, none], false⟩ : StepRec).frames.length = 3 ∧
    countOccupied (⟨1, 1, [some 1, none, none], false⟩ : StepRec).frames ≤ 3 :=
  frame_bank_capacity 3 [1, 2] [] false (by decide)
    ⟨1, 1, [some 1, none, none], false⟩ (by decide)

/-! ### Policy A required-set draining -/

lemma processPage_required_eq (sp : Bool) (p : Nat) (s : SimState) :
    (processPage sp p s).1.required =
      s.required.filter (fun r => !(decide ((some r) ∈ (processPage sp p s).1.frames))) := by
  rw [processPage_required_def]
  split
  · rfl
  · rename_i h
    have hnil : s.required = [] := List.length_eq_zero.mp (by omega)
    simp [hnil]

lemma processPage_fault_of_drained (sp : Bool) (p : Nat) (s : SimState)
    (hne : s.required ≠ []) (hdone : (processPage sp p s).1.required = []) :
    (processPage sp p s).2 = false := by
  rw [processPage_fault_def]
  have h1 : s.required.length > 0 := by
    cases hcase : s.required with
    | nil => exact absurd hcase hne
    | cons a l => simp [hcase]
  simp [hdone, h1]

lemma stateAfter_required_filter (sp : Bool) :
    ∀ (ref : List Nat) (s : SimState),
      (stateAfter sp ref s).required =
        s.required.filter
          (fun r => !((statesList sp ref s).any (fun st => decide ((some r) ∈ st.frames)))) := by
  intro ref
  induction ref with
  | nil => intro s; simp [stateAfter, statesList]
  | cons p rest ih =>
    intro s
    rw [stateAfter_cons, ih (processPage sp p s).1, processPage_required_eq,
      List.filter_filter]
    simp only [statesList]
    apply List.filter_congr
    intro a _
    simp [Bool.and_comm]

/-- C2: under the code's policy (Policy A) the remaining required set
after any number of steps is exactly the input minus every required page
that has been resident at the end of some step (cumulative residency,
regardless of later eviction); and on the step that drains the last
required page the engine emits that step with fault `false` — even though
it may be a miss — and terminates there, so no subsequent step exists to
signal a fault. -/
theorem policyA_required_drain_terminates (fc idx : Nat) (ref req rest : List Nat)
    (p : Nat) (s : SimState)
    (hne : s.required ≠ []) (hdone : (processPage true p s).1.required = []) :
    nextStep true (p :: rest) idx s =
      [⟨idx, p, (processPage true p s).1.frames, false⟩] ∧
    (stateAfter true ref (initState fc req)).required =
      req.filter (fun r => !((statesList true ref (initState fc req)).any
        (fun st => decide ((some r) ∈ st.frames)))) := by
  constructor
  · simp only [nextStep]
    rw [processPage_fault_of_drained true p s hne hdone]
    simp [hdone]
  · exact stateAfter_required_filter true ref (initState fc req)

/-- Witness for C2 on the final step of the spec's Policy A scenario. -/
theorem policyA_required_drain_terminates_witness :
    nextStep true [4] 4 ⟨[some 1, some 2, some 3], [0, 1, 2], [4]⟩ =
      [⟨4, 4, (processPage true 4 ⟨[some 1, some 2, some 3], [0, 1, 2], [4]⟩).1.frames,
        false⟩] ∧
    (stateAfter true [1, 2, 3, 4] (initState 3 [2, 4])).required =
      [2, 4].filter (fun r => !((statesList true [1, 2, 3, 4] (initState 3 [2, 4])).any
        (fun st => decide ((some r) ∈ st.frames)))) :=
  policyA_required_drain_terminates 3 4 [1, 2, 3, 4] [2, 4] [] 4
    ⟨[some 1, some 2, some 3], [0, 1, 2], [4]⟩ (by decide) (by decide)

/-! ### Policy B (spec-modelled) -/

lemma doStepB_fault_def (req : List Nat) (p : Nat) (b : BState) :
    (doStepB req p b).2 =
      (if req.isEmpty then false
       else !(decide ((some p) ∈ b.frames) ||
              allRequiredResident req (doStepB req p b).1.frames)) := rfl

lemma bStateAfter_cons (req : List Nat) (p : Nat) (rest : List Nat) (b : BState) :
    bStateAfter req (p :: rest) b = bStateAfter req rest (doStepB req p b).1 := rfl

lemma runB_length_le (req : List Nat) :
    ∀ (ref : List Nat) (idx : Nat) (b : BState),
      (runB req ref idx b).length ≤ ref.length := by
  intro ref
  induction ref with
  | nil => intro idx b; simp [runB]
  | cons p rest ih =>
    intro idx b
    simp only [runB]
    split
    · simp
    · simpa using Nat.succ_le_succ (ih (idx + 1) (doStepB req p b).1)

lemma runB_stop_characterization (req : List Nat) :
    ∀ (ref : List Nat) (idx : Nat) (b : BState),
      (runB req ref idx b).length < ref.length →
      allRequiredResident req
        (bStateAfter req (ref.take (runB req ref idx b).length) b).frames = true := by
  intro ref
  induction ref with
  | nil => intro idx b h; simp [runB] at h
  | cons p rest ih =>
    intro idx b
    simp only [runB]
    split
    · rename_i hstop
      intro _
      have hres : allRequiredResident req (doStepB req p b).1.frames = true :=
        ((Bool.and_eq_true _ _).mp hstop).2
      simpa [bStateAfter] using hres
    · intro hlt
      have hlt' : (runB req rest (idx + 1) (doStepB req p b).1).length < rest.length := by
        simpa using hlt
      have hrec := ih (idx + 1) (doStepB req p b).1 hlt'
      simpa [List.take_succ_cons, bStateAfter_cons] using hrec

/-- C3: under the spec-modelled Policy B with a non-empty required set, a
step's fault flag is `false` exactly when the page was already resident (a
hit) or the Frame Bank immediately after this step's placement
simultaneously contains every required page (evaluated against current
residency, so an evicted required page must reappear); and the run
terminates before exhausting the reference string only at an instant where
all required pages are simultaneously resident. -/
theorem policyB_fault_iff_completion (req : List Nat) (p : Nat) (b : BState)
    (ref : List Nat) (idx : Nat) (b0 : BState) (hreq : req ≠ []) :
    ((doStepB req p b).2 = false ↔
      ((some p) ∈ b.frames ∨
        allRequiredResident req (doStepB req p b).1.frames = true)) ∧
    (runB req ref idx b0).length ≤ ref.length ∧
    ((runB req ref idx b0).length < ref.length →
      allRequiredResident req
        (bStateAfter req (ref.take (runB req ref idx b0).length) b0).frames = true) := by
  refine ⟨?_, runB_length_le req ref idx b0, runB_stop_characterization req ref idx b0⟩
  rw [doStepB_fault_def]
  have hne : req.isEmpty = false := by
    cases hcase : req with
    | nil => exact absurd hcase hreq
    | cons a l => simp [hcase]
  by_cases hp : (some p) ∈ b.frames
  · simp [hne, hp]
  · simp [hne, hp]

/-- Witness for C3 at a concrete miss and a concrete early-terminating
Policy B run. -/
theorem policyB_fault_iff_completion_witness :
    ((doStepB [1, 2] 5 ⟨[some 1], [0]⟩).2 = false ↔
      ((some 5) ∈ ([some 1] : List Frame) ∨
        allRequiredResident [1, 2] (doStepB [1, 2] 5 ⟨[some 1], [0]⟩).1.frames = true)) ∧
    (runB [1, 2] [1, 2, 3] 1 ⟨[none, none, none], []⟩).length ≤ 3 ∧
    ((runB [1, 2] [1, 2, 3] 1 ⟨[none, none, none], []⟩).length < 3 →
      allRequiredResident [1, 2]
        (bStateAfter [1, 2]
          ([1, 2, 3].take (runB [1, 2] [1, 2, 3] 1 ⟨[none, none, none], []⟩).length)
          ⟨[none, none, none], []⟩).frames = true) :=
  policyB_fault_iff_completion [1, 2] 5 ⟨[some 1], [0]⟩ [1, 2, 3] 1
    ⟨[none, none, none], []⟩ (by decide)

/-! ### Frame-occupancy helper lemmas -/

lemma isOccupied_set_some_self (frames : List Frame) (e : Nat) (p : Nat)
    (he : e < frames.length) :
    isOccupied (frames.set e (some p)) e = true := by
  have h : (frames.set e (some p)).get? e = some (some p) := by
    rw [List.get?_set_eq, List.get?_eq_get he]
    rfl
  unfold isOccupied
  rw [h]

lemma isOccupied_set_ne (frames : List Frame) (e j : Nat) (v : Frame) (h : j ≠ e) :
    isOccupied (frames.set e v) j = isOccupied frames j := by
  unfold isOccupied
  rw [List.get?_set_ne _ _ (Ne.symm h)]

lemma exists_of_isOccupied (frames : List Frame) (i : Nat)
    (h : isOccupied frames i = true) :
    ∃ q, frames.get? i = some (some q) := by
  unfold isOccupied at h
  cases hc : frames.get? i with
  | none => rw [hc] at h; simp at h
  | some o =>
    cases o with
    | none => rw [hc] at h; simp at h
    | some q => exact ⟨q, rfl⟩

lemma countP_set_add (q : Frame → Bool) (l : List Frame) :
    ∀ (i : Nat) (a b : Frame), l.get? i = some a →
      (l.set i b).countP q + (if q a then 1 else 0) =
        l.countP q + (if q b then 1 else 0) := by
  induction l with
  | nil => intro i a b h; simp at h
  | cons x xs ih =>
    intro i a b h
    cases i with
    | zero =>
      have hx : x = a := by simpa using h
      subst hx
      show (b :: xs).countP q + _ = _
      simp only [List.countP_cons]
      omega
    | succ n =>
      have h' : xs.get? n = some a := by simpa using h
      have hrec := ih n a b h'
      show (x :: xs.set n b).countP q + _ = _
      simp only [List.countP_cons]
      omega

lemma countOccupied_set_empty (frames : List Frame) (e : Nat) (p : Nat)
    (h : frames.get? e = some none) :
    countOccupied (frames.set e (some p)) = countOccupied frames + 1 := by
  have hc := countP_set_add (fun o => o.isSome) frames e none (some p) h
  simpa [countOccupied] using hc

lemma countOccupied_set_occupied (frames : List Frame) (i : Nat) (q p : Nat)
    (h : frames.get? i = some (some q)) :
    countOccupied (frames.set i (some p)) = countOccupied frames := by
  have hc := countP_set_add (fun o => o.isSome) frames i (some q) (some p) h
  simp at hc
  simp only [countOccupied]
  omega

lemma indexOf_none_spec (frames : List Frame) (h : (none : Frame) ∈ frames) :
    frames.indexOf none < frames.length ∧
      frames.get? (frames.indexOf none) = some none := by
  induction frames with
  | nil => simp at h
  | cons x xs ih =>
    by_cases hx : x = none
    · subst hx
      simp [List.indexOf_cons]
    · have hmem : (none : Frame) ∈ xs := by
        rcases List.mem_cons.mp h with h1 | h2
        · exact absurd h1.symm hx
        · exact h2
      have hrec := ih hmem
      have hbeq : ((x == none) : Bool) = false := by
        simp [hx]
      rw [List.indexOf_cons, hbeq]
      simpa using hrec

lemma isOccupied_replicate_none (n i : Nat) :
    isOccupied (List.replicate (α := Frame) n none) i = false := by
  unfold isOccupied
  rw [List.get?_eq_getElem?, List.getElem?_replicate]
  by_cases hin : i < n
  · rw [if_pos hin]
  · rw [if_neg hin]

lemma countOccupied_replicate_none (n : Nat) :
    countOccupied (List.replicate n none) = 0 := by
  rw [countOccupied, List.countP_eq_zero]
  intro a ha
  rw [List.eq_of_mem_replicate ha]
  simp

/-! ### Instrumented-step characterizations -/

open FifoG

lemma processPageG_toSim (sp : Bool) (p : Nat) (g : GState) :
    (processPageG sp p g).toSim = (processPage sp p g.toSim).1 := rfl

lemma processPageG_hit (sp : Bool) (p : Nat) (g : GState)
    (hp : (some p) ∈ g.frames) :
    (processPageG sp p g).frames = g.frames ∧
    (processPageG sp p g).queue = g.queue ∧
    (∀ j, (processPageG sp p g).fillTime j = g.fillTime j) ∧
    (processPageG sp p g).clock = g.clock + 1 := by
  refine ⟨?_, ?_, ?_, rfl⟩ <;> simp [processPageG, hp]

lemma processPageG_fill (sp : Bool) (p : Nat) (g : GState)
    (hp : (some p) ∉ g.frames) (he : (none : Frame) ∈ g.frames) :
    (processPageG sp p g).frames = g.frames.set (g.frames.indexOf none) (some p) ∧
    (processPageG sp p g).queue = g.queue ++ [g.frames.indexOf none] ∧
    (∀ j, (processPageG sp p g).fillTime j =
      if g.frames.indexOf none = j then g.clock else g.fillTime j) ∧
    (processPageG sp p g).clock = g.clock + 1 := by
  refine ⟨?_, ?_, ?_, rfl⟩ <;> simp [processPageG, placePage, hp, he]

lemma processPageG_rotate (sp : Bool) (p : Nat) (g : GState) (i : Nat) (rest : List Nat)
    (hp : (some p) ∉ g.frames) (he : (none : Frame) ∉ g.frames)
    (hq : g.queue = i :: rest) :
    (processPageG sp p g).frames = g.frames.set i (some p) ∧
    (processPageG sp p g).queue = rest ++ [i] ∧
    (∀ j, (processPageG sp p g).fillTime j =
      if i = j then g.clock else g.fillTime j) ∧
    (processPageG sp p g).clock = g.clock + 1 := by
  refine ⟨?_, ?_, ?_, rfl⟩ <;> simp [processPageG, placePage, hp, he, hq]

lemma processPageG_stuck (sp : Bool) (p : Nat) (g : GState)
    (hp : (some p) ∉ g.frames) (he : (none : Frame) ∉ g.frames)
    (hq : g.queue = []) :
    (processPageG sp p g).frames = g.frames ∧
    (processPageG sp p g).queue = [] ∧
    (∀ j, (processPageG sp p g).fillTime j = g.fillTime j) ∧
    (processPageG sp p g).clock = g.clock + 1 := by
  refine ⟨?_, ?_, ?_, rfl⟩ <;> simp [processPageG, placePage, hp, he, hq]

/-! ### The Replacement Queue invariant is preserved -/

lemma QInv_initG (fc : Nat) (req : List Nat) : QInv (initG fc req) := by
  refine ⟨List.nodup_nil, ?_, ?_, List.Pairwise.nil, ?_⟩
  · intro i
    simp [initG, isOccupied_replicate_none]
  · simp [initG, countOccupied_replicate_none]
  · intro i hi
    simp [initG] at hi

lemma QInv_processPageG (sp : Bool) (p : Nat) (g : GState) (hg : QInv g) :
    QInv (processPageG sp p g) := by
  obtain ⟨hnd, hmem, hlen, hpw, hclk⟩ := hg
  by_cases hp : (some p) ∈ g.frames
  · obtain ⟨hf, hq', hft, hc⟩ := processPageG_hit sp p g hp
    refine ⟨?_, ?_, ?_, ?_, ?_⟩
    · rw [hq']; exact hnd
    · intro i; rw [hq', hf]; exact hmem i
    · rw [hq', hf]; exact hlen
    · rw [hq']
      exact hpw.imp (fun {a b} hab => by rw [hft a, hft b]; exact hab)
    · intro i hi
      rw [hq'] at hi
      rw [hft i, hc]
      exact Nat.lt_succ_of_lt (hclk i hi)
  · by_cases he : (none : Frame) ∈ g.frames
    · obtain ⟨hf, hq', hft, hc⟩ := processPageG_fill sp p g hp he
      obtain ⟨hlt, hget⟩ := indexOf_none_spec g.frames he
      set e := g.frames.indexOf none with hedef
      have hocc_e : isOccupied g.frames e = false := by
        unfold isOccupied
        rw [hget]
      have he_notin : e ∉ g.queue := by
        intro hin
        have h2 := (hmem e).mp hin
        rw [hocc_e] at h2
        exact Bool.false_ne_true h2
      refine ⟨?_, ?_, ?_, ?_, ?_⟩
      · rw [hq', List.nodup_append]
        refine ⟨hnd, by simp, ?_⟩
        intro a ha hae
        rw [List.mem_singleton] at hae
        exact he_notin (hae ▸ ha)
      · intro j
        rw [hq', hf, List.mem_append, List.mem_singleton]
        by_cases hj : j = e
        · subst hj
          simp [isOccupied_set_some_self g.frames e p hlt]
        · rw [isOccupied_set_ne g.frames e j _ hj]
          simp [hj, hmem j]
      · rw [hq', hf, List.length_append]
        rw [countOccupied_set_empty g.frames e p hget]
        simp [hlen]
      · rw [hq', List.pairwise_append]
        refine ⟨?_, by simp, ?_⟩
        · refine hpw.imp_of_mem ?_
          intro a b ha hb hab
          have hae : e ≠ a := fun hx => he_notin (hx ▸ ha)
          have hbe : e ≠ b := fun hx => he_notin (hx ▸ hb)
          rw [hft a, hft b, if_neg hae, if_neg hbe]
          exact hab
        · intro a ha b hb
          rw [List.mem_singleton] at hb
          subst hb
          have hae : e ≠ a := fun hx => he_notin (hx ▸ ha)
          rw [hft a, hft e, if_neg hae, if_pos rfl]
          exact hclk a ha
      · intro j hj
        rw [hq', List.mem_append, List.mem_singleton] at hj
        rw [hft j, hc]
        rcases hj with hj | hj
        · have hje : e ≠ j := fun hx => he_notin (hx ▸ hj)
          rw [if_neg hje]
          exact Nat.lt_succ_of_lt (hclk j hj)
        · subst hj
          rw [if_pos rfl]
          exact Nat.lt_succ_self _
    · cases hqc : g.queue with
      | nil =>
        obtain ⟨hf, hq', hft, hc⟩ := processPageG_stuck sp p g hp he hqc
        refine ⟨?_, ?_, ?_, ?_, ?_⟩
        · rw [hq']; exact List.nodup_nil
        · intro i
          rw [hq', hf]
          have h3 := hmem i
          rw [hqc] at h3
          exact h3
        · rw [hq', hf]
          have h4 := hlen
          rw [hqc] at h4
          simpa using h4
        · rw [hq']; exact List.Pairwise.nil
        · intro i hi
          rw [hq'] at hi
          simp at hi
      | cons i rest =>
        obtain ⟨hf, hq', hft, hc⟩ := processPageG_rotate sp p g i rest hp he hqc
        have hiq : i ∈ g.queue := by rw [hqc]; exact List.mem_cons_self i rest
        have hocc_i : isOccupied g.frames i = true := (hmem i).mp hiq
        obtain ⟨q0, hgeti⟩ := exists_of_isOccupied g.frames i hocc_i
        have hnd' := hnd
        rw [hqc, List.nodup_cons] at hnd'
        have hpw' := hpw
        rw [hqc, List.pairwise_cons] at hpw'
        refine ⟨?_, ?_, ?_, ?_, ?_⟩
        · rw [hq', List.nodup_append]
          refine ⟨hnd'.2, by simp, ?_⟩
          intro a ha hae
          rw [List.mem_singleton] at hae
          exact hnd'.1 (hae ▸ ha)
        · intro j
          rw [hq', hf, List.mem_append, List.mem_singleton]
          by_cases hj : j = i
          · have hltj : i < g.frames.length := by
              rcases List.get?_eq_some.mp hgeti with ⟨hltj2, _⟩
              exact hltj2
            simp [hj, isOccupied_set_some_self g.frames i p hltj]
          · rw [isOccupied_set_ne g.frames i j _ hj]
            have h3 := hmem j
            rw [hqc, List.mem_cons] at h3
            simp [hj] at h3
            simp [hj, h3]
        · rw [hq', hf, List.length_append]
          rw [countOccupied_set_occupied g.frames i q0 p hgeti]
          have h4 := hlen
          rw [hqc] at h4
          simp at h4 ⊢
          omega
        · rw [hq', List.pairwise_append]
          refine ⟨?_, by simp, ?_⟩
          · refine hpw'.2.imp_of_mem ?_
            intro a b ha hb hab
            have hai : i ≠ a := fun hx => hnd'.1 (hx ▸ ha)
            have hbi : i ≠ b := fun hx => hnd'.1 (hx ▸ hb)
            rw [hft a, hft b, if_neg hai, if_neg hbi]
            exact hab
          · intro a ha b hb
            rw [List.mem_singleton] at hb
            rw [hb]
            have hai : i ≠ a := fun hx => hnd'.1 (hx ▸ ha)
            rw [hft a, hft i, if_neg hai, if_pos rfl]
            exact hclk a (by rw [hqc]; exact List.mem_cons_of_mem i ha)
        · intro j hj
          rw [hq', List.mem_append, List.mem_singleton] at hj
          rw [hft j, hc]
          rcases hj with hj | hj
          · have hji : i ≠ j := fun hx => hnd'.1 (hx ▸ hj)
            rw [if_neg hji]
            exact Nat.lt_succ_of_lt (hclk j (by rw [hqc]; exact List.mem_cons_of_mem i hj))
          · rw [hj, if_pos rfl]
            exact Nat.lt_succ_self _

lemma gAfter_cons (sp : Bool) (p : Nat) (rest : List Nat) (g : GState) :
    gAfter sp (p :: rest) g = gAfter sp rest (processPageG sp p g) := rfl

lemma QInv_gAfter (sp : Bool) :
    ∀ (ref : List Nat) (g : GState), QInv g → QInv (gAfter sp ref g) := by
  intro ref
  induction ref with
  | nil => intro g hg; exact hg
  | cons p rest ih =>
    intro g hg
    rw [gAfter_cons]
    exact ih _ (QInv_processPageG sp p g hg)

lemma gAfter_toSim (sp : Bool) :
    ∀ (ref : List Nat) (g : GState),
      (gAfter sp ref g).toSim = stateAfter sp ref g.toSim := by
  intro ref
  induction ref with
  | nil => intro g; rfl
  | cons p rest ih =>
    intro g
    rw [gAfter_cons, stateAfter_cons, ih, processPageG_toSim]

/-- C4: at every point of the simulation the Replacement Queue holds
exactly the indices of the currently occupied frames (no duplicates, and
membership coincides with occupancy), its size equals the number of
occupied frames, it is ordered by the ghost fill time (the order in which
the slots were filled or last refilled), and its front element has the
least fill time among all occupied frames — the longest-resident one.  The
instrumented run projects onto the engine's actual state. -/
theorem replacement_queue_invariant (fc : Nat) (ref req : List Nat) (sp : Bool) :
    (FifoG.gRun fc ref req sp).toSim = stateAfter sp ref (initState fc req) ∧
    (FifoG.gRun fc ref req sp).queue.Nodup ∧
    (∀ i, i ∈ (FifoG.gRun fc ref req sp).queue ↔
      isOccupied (FifoG.gRun fc ref req sp).frames i = true) ∧
    (FifoG.gRun fc ref req sp).queue.length =
      countOccupied (FifoG.gRun fc ref req sp).frames ∧
    (FifoG.gRun fc ref req sp).queue.Pairwise
      (fun a b => (FifoG.gRun fc ref req sp).fillTime a <
        (FifoG.gRun fc ref req sp).fillTime b) ∧
    (∀ i rest, (FifoG.gRun fc ref req sp).queue = i :: rest →
      ∀ j, isOccupied (FifoG.gRun fc ref req sp).frames j = true →
        (FifoG.gRun fc ref req sp).fillTime i ≤
          (FifoG.gRun fc ref req sp).fillTime j) := by
  have hg : FifoG.gRun fc ref req sp = FifoG.gAfter sp ref (FifoG.initG fc req) := rfl
  rw [hg]
  obtain ⟨hnd, hmem, hlen, hpw, hclk⟩ :=
    QInv_gAfter sp ref (FifoG.initG fc req) (QInv_initG fc req)
  refine ⟨gAfter_toSim sp ref (FifoG.initG fc req), hnd, hmem, hlen, hpw, ?_⟩
  intro i rest hqeq j hocc
  have hjq := (hmem j).mpr hocc
  rw [hqeq] at hjq
  rcases List.mem_cons.mp hjq with h1 | h2
  · rw [h1]
  · have hpw2 := hpw
    rw [hqeq, List.pairwise_cons] at hpw2
    exact Nat.le_of_lt (hpw2.1 j h2)

/-- Witness for C4: after the run `[1,2,3,4]` on 3 frames the queue front
(frame 1) has a fill time no later than occupied frame 2's. -/
theorem replacement_queue_invariant_witness :
    (FifoG.gRun 3 [1, 2, 3, 4] [] false).fillTime 1 ≤
      (FifoG.gRun 3 [1, 2, 3, 4] [] false).fillTime 2 :=
  (replacement_queue_invariant 3 [1, 2, 3, 4] [] false).2.2.2.2.2 1 [2, 0]
    (by decide) 2 (by decide)
